import Mathlib

/-!
Shallow embedding of `redouble_and_convert2ipa.py`: a Yupik orthography
pipeline consisting of a grapheme tokenizer (`tokenize`), a consonant
redoubling pass (`redouble`), an IPA conversion (`convert2ipa`) and a
serializer (`tokens2string`).

Tokens are modelled as `String`, token sequences as `List String`.
The Python while-loops are embedded as fuel-indexed structural recursions,
with the fuel instantiated so that the loop always runs to completion
(`tokenize` consumes at least one character per step; `redouble` advances
its cursor by at least one per step).  Python dictionary lookup that can
raise `KeyError` is modelled by an `Option`-returning variant
(`redoubleLoopE` / `redoubleE`); indexing `graphemes[-1]` on an empty list
raises `IndexError`, modelled by `convert2ipa` returning `none`.
-/

namespace Yupik

/-- The grapheme inventory, in the priority order of the Python source. -/
def GRAPHEMES : List String := [
  "ngngw",
  "ngng",
  "ghhw",
  "ghh",
  "ghw",
  "ngw",
  "gg",
  "gh",
  "kw",
  "ll",
  "mm",
  "ng",
  "nn",
  "qw",
  "rr",
  "wh",
  "aa",
  "ii",
  "uu",
  "a",
  "e",
  "f",
  "g",
  "h",
  "i",
  "k",
  "l",
  "m",
  "n",
  "p",
  "q",
  "r",
  "s",
  "t",
  "u",
  "v",
  "w",
  "y",
  "z"
]

/-- Python `word.lower()`: lower-case every character. -/
def lowercase (word : String) : String :=
  String.mk (word.toList.map Char.toLower)

/-- The backward greedy-matching loop of `tokenize`.  `w` is the list of
characters of the still unconsumed prefix `word[0:end]`; each step matches
the longest grapheme that is a suffix of `w` (in inventory priority order),
or falls back to the single last character.  The fuel bounds the number of
iterations; since every step consumes at least one character,
`fuel = w.length` always suffices. -/
def tokenizeLoop : Nat → List Char → List String
  | 0, _ => []
  | fuel + 1, w =>
    if hw : w = [] then []
    else
      match GRAPHEMES.find? (fun g => g.toList.isSuffixOf w) with
      | some g => tokenizeLoop fuel (w.take (w.length - g.length)) ++ [g]
      | none => tokenizeLoop fuel (w.take (w.length - 1)) ++ [String.mk [w.getLast hw]]

/-- `tokenize(word)`: lower-case the word, then segment it into graphemes
by backward greedy longest match. -/
def tokenize (word : String) : List String :=
  tokenizeLoop (lowercase word).toList.length (lowercase word).toList

/-- `tokens2string(tokens)`: concatenate the tokens in order. -/
def tokens2string (tokens : List String) : String :=
  tokens.foldl (fun s t => s ++ t) ""

/-- The `DOUBLED_FRICATIVE` list of the redoubler. -/
def DOUBLED_FRICATIVE : List String := ["ll", "rr", "gg", "ghh", "ghhw"]

/-- The `DOUBLEABLE_FRICATIVE` list of the redoubler. -/
def DOUBLEABLE_FRICATIVE : List String := ["l", "r", "g", "gh", "ghw"]

/-- The `DOUBLEABLE_NASAL` list of the redoubler. -/
def DOUBLEABLE_NASAL : List String := ["n", "m", "ng", "ngw"]

/-- The `UNDOUBLEABLE_UNVOICED_CNS` list of the redoubler. -/
def UNDOUBLEABLE_UNVOICED_CNS : List String :=
  ["p", "t", "k", "kw", "q", "qw", "f", "s", "wh"]

/-- The `double` dictionary of the redoubler, as an association list. -/
def double : List (String × String) := [
  ("l", "ll"),
  ("r", "rr"),
  ("g", "gg"),
  ("gh", "ghh"),
  ("ghw", "ghhw"),
  ("n", "nn"),
  ("m", "mm"),
  ("ng", "ngng"),
  ("ngw", "ngngw")
]

/-- Python `double[x]` as a fallible lookup: `none` models a `KeyError`. -/
def doubleLookup (x : String) : Option String :=
  (double.find? (fun p => p.1 == x)).map Prod.snd

/-- Total extension of the `double` lookup (identity off the keys).  The
redoubling rules only ever apply it to keys of the table, so on every
reachable argument it agrees with `double[x]`. -/
def doubleFn (x : String) : String :=
  (doubleLookup x).getD x

/-- Predicate of Rule 1A: a doubleable fricative before an undoubleable
unvoiced consonant (mutates the first token). -/
def ruleA (first second : String) : Bool :=
  decide (first ∈ DOUBLEABLE_FRICATIVE) && decide (second ∈ UNDOUBLEABLE_UNVOICED_CNS)

/-- Predicate of Rule 1B: an undoubleable unvoiced consonant before a
doubleable fricative (mutates the second token). -/
def ruleB (first second : String) : Bool :=
  decide (first ∈ UNDOUBLEABLE_UNVOICED_CNS) && decide (second ∈ DOUBLEABLE_FRICATIVE)

/-- Predicate of Rule 2: an undoubleable unvoiced consonant before a
doubleable nasal (mutates the second token). -/
def ruleC (first second : String) : Bool :=
  decide (first ∈ UNDOUBLEABLE_UNVOICED_CNS) && decide (second ∈ DOUBLEABLE_NASAL)

/-- Predicate of Rule 3A: an already-doubled fricative before a doubleable
fricative or nasal (mutates the second token). -/
def ruleD (first second : String) : Bool :=
  decide (first ∈ DOUBLED_FRICATIVE) &&
    (decide (second ∈ DOUBLEABLE_FRICATIVE) || decide (second ∈ DOUBLEABLE_NASAL))

/-- Predicate of Rule 3B: a doubleable fricative before the grapheme `ll`
(mutates the first token). -/
def ruleE (first second : String) : Bool :=
  decide (first ∈ DOUBLEABLE_FRICATIVE) && (second == "ll")

/-- The `while (i+1 < len(result))` loop of `redouble`, with the total
`doubleFn` standing in for the dictionary lookup.  The cursor advances by 2
when a rule fires (after mutating one of the two inspected positions) and
by 1 otherwise; the fuel bounds the number of iterations, and
`fuel = result.length` always suffices since `i` grows by at least one per
iteration. -/
def redoubleLoop : Nat → List String → Nat → List String
  | 0, result, _ => result
  | fuel + 1, result, i =>
    if h : i + 1 < result.length then
      if ruleA result[i] result[i + 1] then
        redoubleLoop fuel (result.set i (doubleFn result[i])) (i + 2)
      else if ruleB result[i] result[i + 1] then
        redoubleLoop fuel (result.set (i + 1) (doubleFn result[i + 1])) (i + 2)
      else if ruleC result[i] result[i + 1] then
        redoubleLoop fuel (result.set (i + 1) (doubleFn result[i + 1])) (i + 2)
      else if ruleD result[i] result[i + 1] then
        redoubleLoop fuel (result.set (i + 1) (doubleFn result[i + 1])) (i + 2)
      else if ruleE result[i] result[i + 1] then
        redoubleLoop fuel (result.set i (doubleFn result[i])) (i + 2)
      else
        redoubleLoop fuel result (i + 1)
    else result

/-- `redouble(graphemes)`: run the rewriting loop from cursor 0. -/
def redouble (graphemes : List String) : List String :=
  redoubleLoop graphemes.length graphemes 0

/-- The same loop with the fallible dictionary lookup: `none` models a
Python `KeyError` escaping from `double[...]`. -/
def redoubleLoopE : Nat → List String → Nat → Option (List String)
  | 0, result, _ => some result
  | fuel + 1, result, i =>
    if h : i + 1 < result.length then
      if ruleA result[i] result[i + 1] then
        match doubleLookup result[i] with
        | some d => redoubleLoopE fuel (result.set i d) (i + 2)
        | none => none
      else if ruleB result[i] result[i + 1] then
        match doubleLookup result[i + 1] with
        | some d => redoubleLoopE fuel (result.set (i + 1) d) (i + 2)
        | none => none
      else if ruleC result[i] result[i + 1] then
        match doubleLookup result[i + 1] with
        | some d => redoubleLoopE fuel (result.set (i + 1) d) (i + 2)
        | none => none
      else if ruleD result[i] result[i + 1] then
        match doubleLookup result[i + 1] with
        | some d => redoubleLoopE fuel (result.set (i + 1) d) (i + 2)
        | none => none
      else if ruleE result[i] result[i + 1] then
        match doubleLookup result[i] with
        | some d => redoubleLoopE fuel (result.set i d) (i + 2)
        | none => none
      else
        redoubleLoopE fuel result (i + 1)
    else some result

/-- `redouble` with explicit `KeyError` propagation. -/
def redoubleE (graphemes : List String) : Option (List String) :=
  redoubleLoopE graphemes.length graphemes 0

/-- The `ipa` dictionary of `convert2ipa`, as an association list. -/
def ipa : List (String × String) := [
  ("i", "i"),
  ("a", "ɑ"),
  ("u", "u"),
  ("e", "ə"),
  ("ii", "iː"),
  ("aa", "ɑː"),
  ("uu", "uː"),
  ("p", "p"),
  ("t", "t"),
  ("k", "k"),
  ("kw", "kʷ"),
  ("q", "q"),
  ("qw", "qʷ"),
  ("v", "v"),
  ("l", "l"),
  ("z", "z"),
  ("y", "j"),
  ("r", "ɹ"),
  ("g", "ɣ"),
  ("w", "ɣʷ"),
  ("gh", "ʁ"),
  ("ghw", "ʁʷ"),
  ("f", "f"),
  ("ll", "ɬ"),
  ("s", "s"),
  ("rr", "ʂ"),
  ("gg", "x"),
  ("wh", "xʷ"),
  ("ghh", "χ"),
  ("ghhw", "χʷ"),
  ("h", "h"),
  ("m", "m"),
  ("n", "n"),
  ("ng", "ŋ"),
  ("ngw", "ŋʷ"),
  ("mm", "m̥"),
  ("nn", "n̥"),
  ("ngng", "ŋ̊"),
  ("ngngw", "ŋ̊ʷ")
]

/-- Python `grapheme in ipa` / `ipa[grapheme]` as a fallible lookup. -/
def ipaLookup (g : String) : Option String :=
  (ipa.find? (fun p => p.1 == g)).map Prod.snd

/-- `convert2ipa(graphemes)`: drop a trailing `*` marker, then map every
remaining grapheme through the `ipa` table, passing unmapped graphemes
through unchanged.  `none` models the `IndexError` raised by the
`graphemes[-1]` marker check on an empty list. -/
def convert2ipa (graphemes : List String) : Option (List String) :=
  match graphemes.getLast? with
  | none => none
  | some last =>
    some ((if last = "*" then graphemes.dropLast else graphemes).map
      (fun g => (ipaLookup g).getD g))

/-! ### Serialization helper lemmas -/

/-- Appending a final token appends its text to the serialization. -/
theorem tokens2string_concat (ts : List String) (g : String) :
    tokens2string (ts ++ [g]) = tokens2string ts ++ g := by
  simp [tokens2string]

/-- The tokenizer loop reassembles to its input whenever the fuel covers the
length of the remaining word. -/
theorem tokenizeLoop_concat (fuel : Nat) : ∀ w : List Char, w.length ≤ fuel →
    tokens2string (tokenizeLoop fuel w) = String.mk w := by
  induction fuel with
  | zero =>
    intro w hw
    have : w = [] := List.length_eq_zero.mp (Nat.le_zero.mp hw)
    subst this
    rfl
  | succ fuel ih =>
    intro w hw
    rw [tokenizeLoop]
    by_cases hw0 : w = []
    · subst hw0; rfl
    · rw [dif_neg hw0]
      have hwpos : 0 < w.length := List.length_pos.mpr hw0
      cases hfind : GRAPHEMES.find? (fun g => g.toList.isSuffixOf w) with
      | some g =>
        have hsuf : g.toList <:+ w := by
          have hp := List.find?_some hfind
          simpa using hp
        obtain ⟨t, ht⟩ := hsuf
        have hglen : g.length = g.toList.length := rfl
        have hgpos : 1 ≤ g.length := by
          have hmem : g ∈ GRAPHEMES := List.mem_of_find?_eq_some hfind
          have hall : ∀ x ∈ GRAPHEMES, 1 ≤ x.length := by decide
          exact hall g hmem
        have hlen : t.length + g.toList.length = w.length := by
          rw [← ht, List.length_append]
        have htake : w.take (w.length - g.length) = t := by
          rw [← ht]
          have : w.length - g.length = t.length := by omega
          rw [← ht] at this
          rw [this]
          exact List.take_left t g.toList
        rw [tokens2string_concat, htake, ih t (by omega)]
        apply String.ext
        rw [← ht]
        simp
      | none =>
        have htake : w.take (w.length - 1) = w.dropLast := by
          rw [List.dropLast_eq_take]
        rw [tokens2string_concat, htake, ih w.dropLast (by simp [List.length_dropLast]; omega)]
        apply String.ext
        have := List.dropLast_concat_getLast hw0
        simp only [String.data_append]
        show w.dropLast ++ [w.getLast hw0] = w
        exact this

/-! ### Redoubler loop lemmas -/

/-- The rewriting loop preserves the length of the token sequence. -/
theorem redoubleLoop_length (fuel : Nat) : ∀ r i, (redoubleLoop fuel r i).length = r.length := by
  induction fuel with
  | zero => intro r i; rfl
  | succ fuel ih =>
    intro r i
    rw [redoubleLoop]
    split
    · split
      · rw [ih]; simp
      · split
        · rw [ih]; simp
        · split
          · rw [ih]; simp
          · split
            · rw [ih]; simp
            · split
              · rw [ih]; simp
              · exact ih r (i + 1)
    · rfl

/-- The rewriting loop never modifies a position strictly below its cursor. -/
theorem redoubleLoop_getElem_lt (fuel : Nat) : ∀ r i j, j < i →
    (redoubleLoop fuel r i)[j]? = r[j]? := by
  induction fuel with
  | zero => intro r i j _; rfl
  | succ fuel ih =>
    intro r i j hj
    rw [redoubleLoop]
    split
    · split
      · rw [ih _ _ _ (by omega), List.getElem?_set_ne (by omega)]
      · split
        · rw [ih _ _ _ (by omega), List.getElem?_set_ne (by omega)]
        · split
          · rw [ih _ _ _ (by omega), List.getElem?_set_ne (by omega)]
          · split
            · rw [ih _ _ _ (by omega), List.getElem?_set_ne (by omega)]
            · split
              · rw [ih _ _ _ (by omega), List.getElem?_set_ne (by omega)]
              · exact ih r (i + 1) j (by omega)
    · rfl

/-- Every position of the rewriting loop's output holds either the original
token of that position or its image under the doubling-table lookup. -/
theorem redoubleLoop_getElem_or (fuel : Nat) : ∀ (r : List String) (i j : Nat),
    (redoubleLoop fuel r i)[j]? = r[j]? ∨
    (redoubleLoop fuel r i)[j]? = (r[j]?).map doubleFn := by
  induction fuel with
  | zero => intro r i j; left; rfl
  | succ fuel ih =>
    intro r i j
    rw [redoubleLoop]
    split
    · rename_i h
      have hset : ∀ k, (k = i ∨ k = i + 1) → ∀ hklt : k < r.length,
          (redoubleLoop fuel (r.set k (doubleFn r[k])) (i + 2))[j]? = r[j]? ∨
          (redoubleLoop fuel (r.set k (doubleFn r[k])) (i + 2))[j]? =
            (r[j]?).map doubleFn := by
        intro k hk hklt
        by_cases hj2 : j < i + 2
        · rw [redoubleLoop_getElem_lt fuel _ (i + 2) j hj2]
          by_cases hjk : j = k
          · subst hjk
            right
            rw [List.getElem?_set_self hklt, List.getElem?_eq_getElem hklt]
            rfl
          · left
            rw [List.getElem?_set_ne (fun hkj => hjk hkj.symm)]
        · have hkj : k ≠ j := by rcases hk with rfl | rfl <;> omega
          rcases ih (r.set k (doubleFn r[k])) (i + 2) j with h1 | h1 <;>
            rw [List.getElem?_set_ne hkj] at h1
          · left; exact h1
          · right; exact h1
      split
      · exact hset i (Or.inl rfl) (by omega)
      · split
        · exact hset (i + 1) (Or.inr rfl) (by omega)
        · split
          · exact hset (i + 1) (Or.inr rfl) (by omega)
          · split
            · exact hset (i + 1) (Or.inr rfl) (by omega)
            · split
              · exact hset i (Or.inl rfl) (by omega)
              · exact ih r (i + 1) j
    · left; rfl

/-! ### Dictionary-lookup soundness of the redoubler -/

/-- `ruleA` firing means the first token is a doubleable fricative and the
second an undoubleable unvoiced consonant. -/
theorem ruleA_mem {f s : String} (h : ruleA f s = true) :
    f ∈ DOUBLEABLE_FRICATIVE ∧ s ∈ UNDOUBLEABLE_UNVOICED_CNS := by
  simpa [ruleA] using h

/-- `ruleB` firing means the first token is an undoubleable unvoiced
consonant and the second a doubleable fricative. -/
theorem ruleB_mem {f s : String} (h : ruleB f s = true) :
    f ∈ UNDOUBLEABLE_UNVOICED_CNS ∧ s ∈ DOUBLEABLE_FRICATIVE := by
  simpa [ruleB] using h

/-- `ruleC` firing means the first token is an undoubleable unvoiced
consonant and the second a doubleable nasal. -/
theorem ruleC_mem {f s : String} (h : ruleC f s = true) :
    f ∈ UNDOUBLEABLE_UNVOICED_CNS ∧ s ∈ DOUBLEABLE_NASAL := by
  simpa [ruleC] using h

/-- `ruleD` firing means the first token is an already-doubled fricative and
the second a doubleable fricative or nasal. -/
theorem ruleD_mem {f s : String} (h : ruleD f s = true) :
    f ∈ DOUBLED_FRICATIVE ∧ (s ∈ DOUBLEABLE_FRICATIVE ∨ s ∈ DOUBLEABLE_NASAL) := by
  simpa [ruleD] using h

/-- `ruleE` firing means the first token is a doubleable fricative and the
second is the grapheme `ll`. -/
theorem ruleE_mem {f s : String} (h : ruleE f s = true) :
    f ∈ DOUBLEABLE_FRICATIVE ∧ s = "ll" := by
  simpa [ruleE] using h

/-- On every doubleable fricative or nasal the fallible dictionary lookup
succeeds and returns exactly what the total extension returns. -/
theorem doubleLookup_eq_some {x : String}
    (hx : x ∈ DOUBLEABLE_FRICATIVE ∨ x ∈ DOUBLEABLE_NASAL) :
    doubleLookup x = some (doubleFn x) := by
  rcases hx with hx | hx <;> fin_cases hx <;> rfl

/-- The fallible rewriting loop never raises a `KeyError`: it agrees with
the total loop on every input. -/
theorem redoubleLoopE_eq (fuel : Nat) : ∀ (r : List String) (i : Nat),
    redoubleLoopE fuel r i = some (redoubleLoop fuel r i) := by
  induction fuel with
  | zero => intro r i; rfl
  | succ fuel ih =>
    intro r i
    rw [redoubleLoopE, redoubleLoop]
    split
    · split
      · rename_i hr
        rw [doubleLookup_eq_some (Or.inl (ruleA_mem hr).1)]
        exact ih _ _
      · split
        · rename_i hr
          rw [doubleLookup_eq_some (Or.inl (ruleB_mem hr).2)]
          exact ih _ _
        · split
          · rename_i hr
            rw [doubleLookup_eq_some (Or.inr (ruleC_mem hr).2)]
            exact ih _ _
          · split
            · rename_i hr
              rw [doubleLookup_eq_some (ruleD_mem hr).2]
              exact ih _ _
            · split
              · rename_i hr
                rw [doubleLookup_eq_some (Or.inl (ruleE_mem hr).1)]
                exact ih _ _
              · exact ih _ _
    · rfl

/-! ### Mutual exclusivity of the doubling rules -/

/-- No doubleable fricative is an undoubleable unvoiced consonant. -/
theorem fric_not_unvoiced : ∀ x ∈ DOUBLEABLE_FRICATIVE, x ∉ UNDOUBLEABLE_UNVOICED_CNS := by
  decide

/-- No doubleable fricative is an already-doubled fricative. -/
theorem fric_not_doubled : ∀ x ∈ DOUBLEABLE_FRICATIVE, x ∉ DOUBLED_FRICATIVE := by
  decide

/-- No undoubleable unvoiced consonant is an already-doubled fricative. -/
theorem unvoiced_not_doubled : ∀ x ∈ UNDOUBLEABLE_UNVOICED_CNS, x ∉ DOUBLED_FRICATIVE := by
  decide

/-- No doubleable fricative is a doubleable nasal. -/
theorem fric_not_nasal : ∀ x ∈ DOUBLEABLE_FRICATIVE, x ∉ DOUBLEABLE_NASAL := by
  decide

/-- If Rule 1A fires on a pair, none of the later rules' predicates holds. -/
theorem ruleA_excl {f s : String} (h : ruleA f s = true) :
    ruleB f s = false ∧ ruleC f s = false ∧ ruleD f s = false ∧ ruleE f s = false := by
  obtain ⟨h1, h2⟩ := ruleA_mem h
  refine ⟨?_, ?_, ?_, ?_⟩
  · cases hB : ruleB f s with
    | false => rfl
    | true => exact absurd (ruleB_mem hB).1 (fric_not_unvoiced f h1)
  · cases hC : ruleC f s with
    | false => rfl
    | true => exact absurd (ruleC_mem hC).1 (fric_not_unvoiced f h1)
  · cases hD : ruleD f s with
    | false => rfl
    | true => exact absurd (ruleD_mem hD).1 (fric_not_doubled f h1)
  · cases hE : ruleE f s with
    | false => rfl
    | true =>
      have hs := (ruleE_mem hE).2
      subst hs
      exact absurd h2 (by decide)

/-- If Rule 1B fires on a pair, none of the later rules' predicates holds. -/
theorem ruleB_excl {f s : String} (h : ruleB f s = true) :
    ruleC f s = false ∧ ruleD f s = false ∧ ruleE f s = false := by
  obtain ⟨h1, h2⟩ := ruleB_mem h
  refine ⟨?_, ?_, ?_⟩
  · cases hC : ruleC f s with
    | false => rfl
    | true => exact absurd (ruleC_mem hC).2 (fric_not_nasal s h2)
  · cases hD : ruleD f s with
    | false => rfl
    | true => exact absurd (ruleD_mem hD).1 (unvoiced_not_doubled f h1)
  · cases hE : ruleE f s with
    | false => rfl
    | true => exact absurd h1 (fric_not_unvoiced f (ruleE_mem hE).1)

/-- If Rule 2 fires on a pair, none of the later rules' predicates holds. -/
theorem ruleC_excl {f s : String} (h : ruleC f s = true) :
    ruleD f s = false ∧ ruleE f s = false := by
  obtain ⟨h1, h2⟩ := ruleC_mem h
  refine ⟨?_, ?_⟩
  · cases hD : ruleD f s with
    | false => rfl
    | true => exact absurd (ruleD_mem hD).1 (unvoiced_not_doubled f h1)
  · cases hE : ruleE f s with
    | false => rfl
    | true => exact absurd h1 (fric_not_unvoiced f (ruleE_mem hE).1)

/-- If Rule 3A fires on a pair, Rule 3B's predicate does not hold. -/
theorem ruleD_excl {f s : String} (h : ruleD f s = true) :
    ruleE f s = false := by
  obtain ⟨h1, _⟩ := ruleD_mem h
  cases hE : ruleE f s with
  | false => rfl
  | true => exact absurd h1 (fric_not_doubled f (ruleE_mem hE).1)

/-! ### IPA converter lemmas -/

/-- Unfolding of `convert2ipa` on a sequence with a known last element. -/
theorem convert2ipa_eq (t : List String) (last : String)
    (hl : t.getLast? = some last) :
    convert2ipa t = some ((if last = "*" then t.dropLast else t).map
      (fun g => (ipaLookup g).getD g)) := by
  rw [convert2ipa, hl]

/-! ### Claim theorems -/

/-- Claim C1: the full pipeline on the one ground-truth sample gives the
documented IPA string: `tokens2string(convert2ipa(redouble(tokenize("aangkegtat"))))`
equals `"ɑːŋkəxtɑt"`. -/
theorem claim1 : (convert2ipa (redouble (tokenize "aangkegtat"))).map tokens2string =
    some "ɑːŋkəxtɑt" := by decide

/-- Claim C2: serializing the token sequence produced by `tokenize` reproduces
the lower-cased input exactly, for every input string (fallback characters
included). -/
theorem claim2 (w : String) : tokens2string (tokenize w) = lowercase w := by
  have h := tokenizeLoop_concat (lowercase w).toList.length (lowercase w).toList le_rfl
  rw [tokenize, h]
  rfl

/-- Claim C3: `redouble` returns a sequence of exactly the same length as
its input, and each position holds either the original token or its doubled
form from the doubling table (replacement only, never insertion or
deletion). -/
theorem claim3 (t : List String) :
    (redouble t).length = t.length ∧
    ∀ i : Nat, (redouble t)[i]? = t[i]? ∨ (redouble t)[i]? = (t[i]?).map doubleFn := by
  exact ⟨redoubleLoop_length t.length t 0,
    fun i => redoubleLoop_getElem_or t.length t 0 i⟩

/-- Claim C4: tokenization is greedy longest-match in inventory priority
order: `tokenize "ngngwaa"` is exactly `["ngngw", "aa"]`, not a decomposition
into shorter graphemes. -/
theorem claim4 : tokenize "ngngwaa" = ["ngngw", "aa"] ∧
    tokenize "ngngwaa" ≠ ["ng", "ng", "w", "aa"] := by decide

/-- Claim C5: on a non-empty input ending in the marker `*`, `convert2ipa`
drops that trailing marker and the output length is the input length minus
one; on a non-empty input not ending in `*`, the output length equals the
input length; in both cases order is preserved and every output position is
the phoneme-table image of the input token at the same position (unmapped
tokens passing through unchanged). -/
theorem claim5 (t : List String) (h : t ≠ []) :
    ∃ out, convert2ipa t = some out ∧
      (if t.getLast h = "*" then out.length = t.length - 1
        else out.length = t.length) ∧
      ∀ i : Nat, i < out.length → out[i]? = (t[i]?).map (fun g => (ipaLookup g).getD g) := by
  have hl : t.getLast? = some (t.getLast h) := List.getLast?_eq_getLast t h
  refine ⟨_, convert2ipa_eq t _ hl, ?_, ?_⟩
  · by_cases hstar : t.getLast h = "*"
    · rw [if_pos hstar, if_pos hstar]
      simp
    · rw [if_neg hstar, if_neg hstar]
      simp
  · intro i hi
    by_cases hstar : t.getLast h = "*"
    · rw [if_pos hstar] at hi ⊢
      have hi2 : i < t.length - 1 := by
        simpa [List.length_dropLast] using hi
      rw [List.getElem?_map, List.getElem?_dropLast, if_pos hi2]
    · rw [if_neg hstar] at hi ⊢
      rw [List.getElem?_map]

/-- Witness for C5 at the concrete inputs `["g", "t", "*"]` (with marker)
and `["g", "t"]` (without): the converter drops exactly the marker and maps
positionwise. -/
theorem claim5_witness :
    (∃ out, convert2ipa ["g", "t", "*"] = some out ∧
      (if ["g", "t", "*"].getLast (by decide) = "*" then out.length = 3 - 1
        else out.length = 3) ∧
      ∀ i : Nat, i < out.length →
        out[i]? = (["g", "t", "*"][i]?).map (fun g => (ipaLookup g).getD g)) ∧
    (∃ out, convert2ipa ["g", "t"] = some out ∧
      (if ["g", "t"].getLast (by decide) = "*" then out.length = 2 - 1
        else out.length = 2) ∧
      ∀ i : Nat, i < out.length →
        out[i]? = (["g", "t"][i]?).map (fun g => (ipaLookup g).getD g)) :=
  ⟨claim5 ["g", "t", "*"] (by decide), claim5 ["g", "t"] (by decide)⟩

/-- Claim C6: the IPA converter hits its out-of-bounds condition exactly on
the empty sequence (`isSome` output iff the input is non-empty), and the
redoubler never fails on any input (its `KeyError`-explicit embedding always
succeeds); `tokenize` and `tokens2string` are total functions by
construction. -/
theorem claim6 (t : List String) :
    (convert2ipa t).isSome = !t.isEmpty ∧ (redoubleE t).isSome = true := by
  constructor
  · cases t with
    | nil => rfl
    | cons a ts =>
      rw [convert2ipa]
      cases h : (a :: ts).getLast? with
      | none => simp [List.getLast?_eq_none_iff] at h
      | some last => rfl
  · rw [redoubleE, redoubleLoopE_eq]
    rfl

/-- Claim C7: the five doubling-rule predicates are mutually exclusive: for
every token pair, at most one of Rules 1A, 1B, 2, 3A, 3B holds, so the rule
applied by the first-match order is the unique applicable rule for that
pair. -/
theorem claim7 (f s : String) :
    ([ruleA f s, ruleB f s, ruleC f s, ruleD f s, ruleE f s].count true) ≤ 1 := by
  cases hA : ruleA f s with
  | true =>
    obtain ⟨hB, hC, hD, hE⟩ := ruleA_excl hA
    rw [hB, hC, hD, hE]
    decide
  | false =>
    cases hB : ruleB f s with
    | true =>
      obtain ⟨hC, hD, hE⟩ := ruleB_excl hB
      rw [hC, hD, hE]
      decide
    | false =>
      cases hC : ruleC f s with
      | true =>
        obtain ⟨hD, hE⟩ := ruleC_excl hC
        rw [hD, hE]
        decide
      | false =>
        cases hD : ruleD f s with
        | true =>
          rw [ruleD_excl hD]
          decide
        | false =>
          cases hE : ruleE f s <;> decide

/-- Claim C8: the doubling table is total over exactly the doubleable
fricatives and doubleable nasals (the graphemes the rules' mutations target),
and consequently the `KeyError`-explicit embedding of `redouble` succeeds on
every token sequence, returning exactly the total embedding's output. -/
theorem claim8 :
    ((DOUBLEABLE_FRICATIVE ++ DOUBLEABLE_NASAL).all
      (fun g => (doubleLookup g).isSome)) = true ∧
    (double.all (fun p =>
      decide (p.1 ∈ DOUBLEABLE_FRICATIVE) || decide (p.1 ∈ DOUBLEABLE_NASAL))) = true ∧
    ∀ t : List String, redoubleE t = some (redouble t) := by
  refine ⟨by decide, by decide, fun t => ?_⟩
  rw [redoubleE, redouble, redoubleLoopE_eq]

/-- Claim C9: `redouble` is not idempotent in general: on `["l", "t", "l"]`
the first pass doubles only the first token (Rule 1A) and skips the pair it
consumed, and a second pass then doubles the final token (Rule 1B), so
re-running `redouble` on its own output changes it again. -/
theorem claim9 : redouble (redouble ["l", "t", "l"]) ≠ redouble ["l", "t", "l"] := by decide

/-- Claim C10: `convert2ipa` removes at most one marker and only from the
final position: `*` is not a key of the phoneme table; `convert2ipa ["*"]`
returns the empty sequence; a `*` in any non-final position appears
unchanged at the same position of the output; and for an input ending in two
markers only the last one is removed (the output still ends in `*` and is
exactly one shorter). -/
theorem claim10 :
    ipaLookup "*" = none ∧
    convert2ipa ["*"] = some [] ∧
    (∀ (t : List String) (i : Nat), i + 1 < t.length → t[i]? = some "*" →
      ((convert2ipa t).getD [])[i]? = some "*") ∧
    (∀ t : List String, ∃ out, convert2ipa (t ++ ["*", "*"]) = some out ∧
      out.length = t.length + 1 ∧ out.getLast? = some "*") := by
  refine ⟨rfl, rfl, ?_, ?_⟩
  · intro t i hi hstar
    have ht : t ≠ [] := by
      intro h
      subst h
      simp at hi
    have hl : t.getLast? = some (t.getLast ht) := List.getLast?_eq_getLast t ht
    rw [convert2ipa_eq t _ hl]
    by_cases hstar2 : t.getLast ht = "*"
    · rw [if_pos hstar2]
      simp only [Option.getD_some]
      rw [List.getElem?_map, List.getElem?_dropLast, if_pos (by omega : i < t.length - 1),
        hstar]
      rfl
    · rw [if_neg hstar2]
      simp only [Option.getD_some]
      rw [List.getElem?_map, hstar]
      rfl
  · intro t
    have hl : (t ++ ["*", "*"]).getLast? = some "*" := by
      rw [show t ++ ["*", "*"] = (t ++ ["*"]) ++ ["*"] by simp]
      exact List.getLast?_concat _
    refine ⟨_, convert2ipa_eq _ _ hl, ?_, ?_⟩
    · rw [if_pos rfl]
      rw [show t ++ ["*", "*"] = (t ++ ["*"]) ++ ["*"] by simp, List.dropLast_concat]
      simp
    · rw [if_pos rfl]
      rw [show t ++ ["*", "*"] = (t ++ ["*"]) ++ ["*"] by simp, List.dropLast_concat,
        List.map_append]
      exact List.getLast?_concat _

/-- Witness for C10 at concrete inputs: in `["a", "*", "t"]` the non-final
marker survives at position 1, and `["a", "*", "*"]` loses only its final
marker. -/
theorem claim10_witness :
    ((convert2ipa ["a", "*", "t"]).getD [])[1]? = some "*" ∧
    (∃ out, convert2ipa (["a"] ++ ["*", "*"]) = some out ∧
      out.length = 2 ∧ out.getLast? = some "*") :=
  ⟨claim10.2.2.1 ["a", "*", "t"] 1 (by decide) (by decide),
    claim10.2.2.2 ["a"]⟩

end Yupik
